import Mathlib

/-!
Verification of the customer-insights analytics core.

Shallow embedding of the analytics pipeline:
  * `src/etl.py` — `_safe_div`, `load_and_enrich` (Telco schema adapter and
    the generic feature engine);
  * `src/analytics.py` — `monthly_cohort_retention`;
  * `src/segmentation.py` — `SEGMENT_LABELS`, `segment_rfm`;
  * `src/modeling.py` — `_prepare_supervised`, `train_churn_model`,
    `predict_churn_probability`.

Modelling conventions:
  * float64 values that only ever hold finite data are modelled as `ℚ`;
    a missing cell (NaN from `read_csv`/`to_numeric`/failed date parse) is
    `Option`; where IEEE special values are the point of a property, the
    type `EFloat` (finite rational, infinities, NaN) is used.
  * calendar instants are modelled at day granularity as `ℤ` day numbers
    (`.dt.days` differences become integer subtraction); calendar months in
    the cohort analysis are modelled as `ℤ` absolute month indices
    (`to_period("M")`; the month difference `(y2-y1)*12 + (m2-m1)` is then
    plain subtraction).
  * a dataframe is a list of row structures; a column that the code fills
    when absent is represented by its filled cells.
-/

/-- IEEE-754-style value space for float64 cells: finite rational, the two
infinities, or NaN.  Rounding and overflow are not modelled; only the
special-value propagation that `_safe_div`'s contract is about. -/
inductive EFloat where
  | nan : EFloat
  | inf : EFloat
  | neginf : EFloat
  | fin : ℚ → EFloat
deriving DecidableEq

namespace EFloat

/-- IEEE division on `EFloat` (the `a / b` of numpy under
`errstate(divide='ignore', invalid='ignore')`): NaN propagates, `inf/inf`
is NaN, a finite number over zero is a signed infinity (`0/0` is NaN),
a finite number over an infinity is 0. -/
def ediv : EFloat → EFloat → EFloat
  | nan, _ => nan
  | _, nan => nan
  | inf, inf => nan
  | inf, neginf => nan
  | neginf, inf => nan
  | neginf, neginf => nan
  | inf, fin q => if 0 ≤ q then inf else neginf
  | neginf, fin q => if 0 ≤ q then neginf else inf
  | fin _, inf => fin 0
  | fin _, neginf => fin 0
  | fin a, fin b =>
      if b = 0 then (if a = 0 then nan else if 0 < a then inf else neginf)
      else fin (a / b)

/-- Whether an `EFloat` is a finite value. -/
def isFinite : EFloat → Bool
  | fin _ => true
  | _ => false

end EFloat

/-- Embedding of `_safe_div` (src/etl.py lines 24-38):
`np.where(b_arr == 0, 0.0, a_arr / b_arr)` applied cell-wise.  The IEEE
comparison `b == 0` is true exactly for the finite value 0, so the guard
fires only there; otherwise the quotient is taken. -/
def safe_div (a b : EFloat) : EFloat :=
  if b = EFloat.fin 0 then EFloat.fin 0 else EFloat.ediv a b

/-- Rational specialisation of `_safe_div` for pipeline cells that are
always finite: returns 0 when the denominator is exactly 0, else the exact
quotient. -/
def safeDivQ (a b : ℚ) : ℚ :=
  if b = 0 then 0 else a / b

/-- Canonical raw customer row, after the schema harmonisation and the
column backfill of `load_and_enrich` (src/etl.py lines 111-126): each
recognised cell is present-or-missing; `churn` carries the pass-through
`Churn` column written by the Telco adapter (absent for tables without
one).  Dates are day numbers. -/
structure RawRow where
  customerID : String
  signupDate : Option ℤ
  lastPurchaseDate : Option ℤ
  lastLoginDate : Option ℤ
  numTransactions : Option ℚ
  totalSpend : Option ℚ
  avgTransactionValue : Option ℚ
  churn : Option ℤ
deriving DecidableEq

/-- Embedding of the Telco churn cell mapping (src/etl.py line 68):
`df["Churn"].map({"Yes": 1, "No": 0}).fillna(0).astype(int)` applied to
one cell.  A missing cell or any string other than the exact `"Yes"` /
`"No"` maps through `NaN` to 0. -/
def churnToInt (v : Option String) : ℤ :=
  (v.bind (fun s => if s = "Yes" then some 1 else if s = "No" then some 0 else none)).getD 0

/-- Raw row of the alternate (Telco) schema: `customerID` and integer
`tenure` months are the detection signature; the charge columns hold
coerced numeric cells (`to_numeric(errors="coerce")` failures are
missing); `churn` holds the raw label cell. -/
structure TelcoRow where
  customerID : String
  tenure : Option ℤ
  monthlyCharges : Option ℚ
  totalCharges : Option ℚ
  churn : Option String
deriving DecidableEq

/-- Embedding of the Telco adapter branch of `load_and_enrich`
(src/etl.py lines 59-105): numeric coercion with fill 0, Yes/No label to
{1,0}, rename to the canonical schema, `SignupDate = anchor - 30*Tenure`
days, `LastPurchaseDate = SignupDate + 30*max(Tenure-1,0)` days when
churned else the anchor, `LastLoginDate = LastPurchaseDate`,
`NumTransactions = max(Tenure,0)`, `AvgTransactionValue = MonthlyCharges`
(the charge columns of the Telco layout are present; missing cells fill
to 0). -/
def telcoAdapt (today : ℤ) (r : TelcoRow) : RawRow :=
  let churnInt : ℤ := churnToInt r.churn
  let t : ℤ := r.tenure.getD 0
  let signup : ℤ := today - t * 30
  let lastPurchase : ℤ := if churnInt = 1 then signup + max (t - 1) 0 * 30 else today
  { customerID := r.customerID
    signupDate := some signup
    lastPurchaseDate := some lastPurchase
    lastLoginDate := some lastPurchase
    numTransactions := some ((max t 0 : ℤ) : ℚ)
    totalSpend := some (r.totalCharges.getD 0)
    avgTransactionValue := some (r.monthlyCharges.getD 0)
    churn := some churnInt }

/-- Maximum of a numeric column skipping missing cells (`Series.max()`):
`none` on an all-missing column. -/
def colMax : List ℚ → Option ℚ
  | [] => none
  | x :: xs =>
      some (match colMax xs with
            | none => x
            | some m => max x m)

/-- Raw days-since-last-login cell of one row (src/etl.py line 138):
missing when the login date is missing. -/
def gapRaw (today : ℤ) (r : RawRow) : Option ℚ :=
  r.lastLoginDate.map (fun d => ((today - d : ℤ) : ℚ))

/-- Enriched output row: the untouched input cells plus the seven
engineered feature columns of src/etl.py lines 128-157. -/
structure EnrichedRow where
  raw : RawRow
  recency : ℚ
  frequency : ℚ
  monetary : ℚ
  tenure : ℚ
  activityGap : ℚ
  arpu : ℚ
  cltv : ℚ
deriving DecidableEq

/-- Feature engineering for one row (src/etl.py lines 128-157), given the
column-level fill value for a missing `ActivityGap` cell:
  * `Recency`: days since last purchase, missing → `inf` → sentinel 9999,
    clamped to ≥ 0;
  * `Frequency` / `Monetary`: the raw counters with missing filled to 0;
  * `Tenure`: days since signup clamped to ≥ 0, missing → 0;
  * `ActivityGap`: days since last login, missing → the supplied fill;
  * `ARPU = _safe_div(Monetary, max(_safe_div(Tenure, 30), 1))`;
  * `CLTV = _safe_div(Frequency, months) * 12 * ATV` with the
    `Monetary/Frequency` fallback for a missing `AvgTransactionValue`
    cell, non-finite values collapsed to 0, clamped to ≥ 0. -/
def enrichRow (today : ℤ) (gapFill : ℚ) (r : RawRow) : EnrichedRow :=
  let recency : ℚ :=
    max (match r.lastPurchaseDate with
         | some d => ((today - d : ℤ) : ℚ)
         | none => 9999) 0
  let frequency : ℚ := r.numTransactions.getD 0
  let monetary : ℚ := r.totalSpend.getD 0
  let tenure : ℚ :=
    match r.signupDate with
    | some d => max ((today - d : ℤ) : ℚ) 0
    | none => 0
  let activityGap : ℚ := (gapRaw today r).getD gapFill
  let months : ℚ := max (safeDivQ tenure 30) 1
  let arpu : ℚ := safeDivQ monetary months
  let expectedTxnRate : ℚ := safeDivQ frequency months
  let fallbackAtv : ℚ := safeDivQ monetary frequency
  let atv : ℚ := r.avgTransactionValue.getD fallbackAtv
  let cltv : ℚ := max (expectedTxnRate * 12 * atv) 0
  { raw := r, recency := recency, frequency := frequency, monetary := monetary,
    tenure := tenure, activityGap := activityGap, arpu := arpu, cltv := cltv }

/-- Column-level fill value for a missing `ActivityGap` cell
(src/etl.py line 139): the column maximum of the observed gaps, falling
back to 0 on an all-missing column
(`fillna(df["ActivityGap"].max()).fillna(0)`). -/
def gapFillOf (today : ℤ) (rows : List RawRow) : ℚ :=
  (colMax (rows.filterMap (gapRaw today))).getD 0

/-- Generic feature engine over a whole table (src/etl.py lines 107-170). -/
def enrichGeneric (today : ℤ) (rows : List RawRow) : List EnrichedRow :=
  rows.map (enrichRow today (gapFillOf today rows))

/-- Input to `load_and_enrich`: the adapter dispatch on the column
signature `{customerID, tenure}` (src/etl.py line 59) makes the table one
of two schema variants. -/
inductive InputTable where
  | telco (rows : List TelcoRow)
  | generic (rows : List RawRow)

/-- Rows after the (conditional) Telco adapter step, i.e. the canonical
rows the generic pipeline runs on. -/
def adaptRows (today : ℤ) : InputTable → List RawRow
  | .telco rs => rs.map (telcoAdapt today)
  | .generic rs => rs

/-- Embedding of `load_and_enrich` (src/etl.py lines 40-170): adapter
dispatch, then the generic feature engine.  Loading/parsing is modelled as
the already-parsed input table. -/
def load_and_enrich (today : ℤ) (t : InputTable) : List EnrichedRow :=
  enrichGeneric today (adaptRows today t)

/-- Input row of `monthly_cohort_retention` after the month extraction
(src/analytics.py lines 9-11): a customer id, the absolute month index of
the signup date (`cohort_month`) and of the last purchase date
(`active_month`).  Rows with a missing date drop out of the `groupby` and
are not modelled. -/
structure CohortRow where
  customerID : String
  cohortMonth : ℤ
  activeMonth : ℤ
deriving DecidableEq

/-- Distinct-customer count of a `(cohort_month, active_month)` cell
(src/analytics.py lines 13-17, `groupby(...).nunique()`). -/
def cohortCount (rows : List CohortRow) (c a : ℤ) : ℕ :=
  (((rows.filter (fun r => r.cohortMonth = c ∧ r.activeMonth = a)).map
      (fun r => r.customerID)).dedup).length

/-- Cohort size at period 0 (src/analytics.py lines 20-21): distinct
customers whose active month equals their cohort month. -/
def cohortSize (rows : List CohortRow) (c : ℤ) : ℕ :=
  cohortCount rows c c

/-- Rounding to three decimals (src/analytics.py line 35, `.round(3)`). -/
def round3 (q : ℚ) : ℚ :=
  ((round (q * 1000) : ℤ) : ℚ) / 1000

/-- Embedding of the retention matrix of `monthly_cohort_retention`
(src/analytics.py lines 4-35) as a function of cohort month and period:
the pivot cell `count(cohort, cohort+period)` (absent cells filled to 0)
divided by the cohort size; a cohort absent from the size series (size 0)
divides by NaN and the trailing `fillna(0)` collapses the row to 0;
rounded to three decimals. -/
def monthly_cohort_retention (rows : List CohortRow) (c : ℤ) (p : ℤ) : ℚ :=
  round3 (if cohortSize rows c = 0 then 0
          else (cohortCount rows c (c + p) : ℚ) / (cohortSize rows c : ℚ))

/-- Embedding of `SEGMENT_LABELS` (src/segmentation.py lines 6-11): the
fixed rank-indexed vocabulary. -/
def SEGMENT_LABELS : ℕ → Option String
  | 0 => some "Champions"
  | 1 => some "Loyal"
  | 2 => some "At Risk"
  | 3 => some "Hibernating"
  | _ => none

/-- Label drawn for a rank (src/segmentation.py line 36):
`SEGMENT_LABELS.get(rank, f"Segment-" + rank)`. -/
def vocabLabel (rank : ℕ) : String :=
  (SEGMENT_LABELS rank).getD ("Segment-" ++ toString rank)

/-- A cluster centroid in standardized RFM feature space
(src/segmentation.py line 27: columns `R`, `F`, `M`). -/
structure Centroid where
  r : ℚ
  f : ℚ
  m : ℚ
deriving DecidableEq

/-- Centroid quality score (src/segmentation.py line 28):
`-R + F + M`. -/
def centroidScore (c : Centroid) : ℚ :=
  -c.r + c.f + c.m

/-- Score column over the centroid table. -/
def scoresOf (cs : List Centroid) : List ℚ :=
  cs.map centroidScore

/-- Zero-based descending rank of centroid `i`
(src/segmentation.py line 29:
`rank(ascending=False, method="first") - 1`): the number of indices that
come strictly before `i` in the order "higher score first, ties broken by
original position". -/
def rankOf (scores : List ℚ) (i : ℕ) : ℕ :=
  ((Finset.range scores.length).filter (fun j =>
      scores.getD i 0 < scores.getD j 0 ∨
      (scores.getD j 0 = scores.getD i 0 ∧ j < i))).card

/-- Cluster id holding a given rank (src/segmentation.py lines 32-35:
`inv_map.get(rank, rank)`): the first cluster index with that rank, the
rank itself when none exists. -/
def cidOfRank (scores : List ℚ) (rank : ℕ) : ℕ :=
  (((List.range scores.length).find? (fun c => rankOf scores c = rank)).getD rank)

/-- The `label_map` dict assembled by the rank loop
(src/segmentation.py lines 33-36), as its insertion sequence. -/
def labelMapOf (cs : List Centroid) : List (ℕ × String) :=
  (List.range cs.length).map
    (fun rank => (cidOfRank (scoresOf cs) rank, vocabLabel rank))

/-- Python dict lookup over an insertion sequence: the last write to a key
wins; `none` for an absent key (a pandas `.map` miss is NaN). -/
def dictFind (l : List (ℕ × String)) (key : ℕ) : Option String :=
  ((l.filter (fun p => p.1 = key)).getLast?).map (fun p => p.2)

/-- Output of `segment_rfm`: cluster assignments, their mapped labels, the
rank-derived label map and the centroid table. -/
structure SegResult where
  segmentIDs : List ℕ
  segments : List (Option String)
  labelMap : List (ℕ × String)
  centroids : List Centroid
deriving DecidableEq

/-- Embedding of `segment_rfm` (src/segmentation.py lines 13-39).  The
sklearn calls are deterministic functions of their inputs for a fixed
`random_state` (that is their documented contract) and are passed in as
explicit function arguments: `scale` stands for
`StandardScaler().fit_transform` and `kmeans X k seed` for
`KMeans(n_clusters=k, random_state=seed).fit_predict` returning the
assignment vector together with `cluster_centers_`.  The RFM features are
taken `fillna(0.0)`; the label map is assembled from the centroid ranks
and applied to the assignments. -/
def segment_rfm
    (scale : List (ℚ × ℚ × ℚ) → List (ℚ × ℚ × ℚ))
    (kmeans : List (ℚ × ℚ × ℚ) → ℕ → ℕ → (List ℕ × List Centroid))
    (rows : List (Option ℚ × Option ℚ × Option ℚ)) (k : ℕ) (seed : ℕ) :
    SegResult :=
  let features := rows.map (fun x => (x.1.getD 0, x.2.1.getD 0, x.2.2.getD 0))
  let X := scale features
  let fitted := kmeans X k seed
  let clusters := fitted.1
  let lm := labelMapOf fitted.2
  { segmentIDs := clusters
    segments := clusters.map (dictFind lm)
    labelMap := lm
    centroids := fitted.2 }

/-- Feature row for the churn model (src/modeling.py lines 17-19): the
fixed seven-column feature set, each cell present-or-missing. -/
structure PredRow where
  recency : Option ℚ
  frequency : Option ℚ
  monetary : Option ℚ
  tenure : Option ℚ
  activityGap : Option ℚ
  arpu : Option ℚ
  cltv : Option ℚ
  extra : List (String × String)
deriving DecidableEq

/-- The 0-filled feature vector of a row (src/modeling.py line 26 and 115:
`df[FEATURES_DEFAULT].fillna(0.0)`). -/
def featVec (r : PredRow) : ℚ × ℚ × ℚ × ℚ × ℚ × ℚ × ℚ :=
  (r.recency.getD 0, r.frequency.getD 0, r.monetary.getD 0, r.tenure.getD 0,
   r.activityGap.getD 0, r.arpu.getD 0, r.cltv.getD 0)

/-- A fitted binary classifier as consumed by
`predict_churn_probability`: sklearn's `predict_proba` contract is that
the returned class-1 column is a probability, so the model carries that
range invariant. -/
structure FittedModel where
  proba : (ℚ × ℚ × ℚ × ℚ × ℚ × ℚ × ℚ) → ℚ
  proba_nonneg : ∀ x, 0 ≤ proba x
  proba_le_one : ∀ x, proba x ≤ 1

/-- Embedding of `predict_churn_probability` (src/modeling.py lines
114-118): build the 0-filled feature matrix, copy the input, append the
`Churn_Probability` column.  The output pairs each untouched input row
with its probability; the caller's list is not modified (the code works on
`df.copy()`). -/
def predict_churn_probability (m : FittedModel) (rows : List PredRow) :
    List (PredRow × ℚ) :=
  rows.map (fun r => (r, m.proba (featVec r)))

/-- Training table for `train_churn_model`: the enriched rows (only
`Recency` matters to the weak label) and the explicit `Churn` column when
present (src/modeling.py lines 21-28). -/
structure TrainTable where
  recencies : List ℚ
  churnCol : Option (List ℤ)

/-- The outcome label vector of `_prepare_supervised` (src/modeling.py
lines 21-28): the explicit label column when present, otherwise the weak
label `(Recency >= 180).astype(int)`. -/
def prepareY (t : TrainTable) : List ℤ :=
  match t.churnCol with
  | some ys => ys
  | none => t.recencies.map (fun r => if (180 : ℚ) ≤ r then 1 else 0)

/-- Embedding of the validation gate of `train_churn_model`
(src/modeling.py lines 36-40): `if y.nunique() < 2: raise ValueError`.
The sklearn fit/evaluate/explain pipeline past the gate is opaque library
code and is abstracted to a unit success value: `ok` means training
proceeds and a bundle is returned, `error` means the descriptive
validation error is raised and nothing is returned. -/
def train_churn_model (t : TrainTable) : Except String Unit :=
  if ((prepareY t).dedup).length < 2 then
    Except.error "Need at least 2 classes for classification."
  else
    Except.ok ()

/-- A trivial fitted classifier (constant probability one half), used to
exercise `predict_churn_probability` on concrete data. -/
def halfModel : FittedModel :=
  { proba := fun _ => 1/2
    proba_nonneg := fun _ => by norm_num
    proba_le_one := fun _ => by norm_num }

/-- An all-missing feature row. -/
def emptyPredRow : PredRow :=
  { recency := none, frequency := none, monetary := none, tenure := none,
    activityGap := none, arpu := none, cltv := none, extra := [] }

/-- A clean concrete raw row (non-negative counters, dates at day 0). -/
def rowClean : RawRow :=
  ⟨"B", some 0, some 0, some 0, some 1, some 2, some 3, none⟩

/-- A raw row with negative counters and a login date in the future of
day 0. -/
def rowNeg : RawRow :=
  ⟨"A", none, none, some 5, some (-1), some (-2), none, none⟩

/-- A brand-new customer: signed up at the evaluation instant, no
transactions, no spend. -/
def rowNew : RawRow :=
  ⟨"A", some 0, some 0, some 0, some 0, some 0, none, none⟩

/-- A zero-tenure zero-frequency customer that nevertheless carries
spend 500. -/
def rowSpend : RawRow :=
  ⟨"A", some 0, some 0, some 0, some 0, some 500, none, none⟩

/-! ## Helper lemmas -/

theorem safeDivQ_nonneg {a b : ℚ} (ha : 0 ≤ a) (hb : 0 ≤ b) :
    0 ≤ safeDivQ a b := by
  unfold safeDivQ
  split
  · exact le_refl 0
  · exact div_nonneg ha hb

theorem safeDivQ_zero_left (b : ℚ) : safeDivQ 0 b = 0 := by
  unfold safeDivQ
  split <;> simp

theorem round_rat_nonneg {q : ℚ} (h : 0 ≤ q) : 0 ≤ round q := by
  rw [round_eq]
  exact Int.floor_nonneg.2 (by linarith)

theorem round3_nonneg {q : ℚ} (h : 0 ≤ q) : 0 ≤ round3 q := by
  unfold round3
  apply div_nonneg _ (by norm_num)
  exact_mod_cast round_rat_nonneg (by linarith [mul_nonneg h (by norm_num : (0:ℚ) ≤ 1000)])

theorem round3_one : round3 1 = 1 := by
  unfold round3
  have h1 : ((1 : ℚ) * 1000) = ((1000 : ℤ) : ℚ) := by norm_num
  rw [h1, round_intCast]
  norm_num

theorem round3_zero : round3 0 = 0 := by
  unfold round3
  have h0 : ((0 : ℚ) * 1000) = ((0 : ℤ) : ℚ) := by norm_num
  rw [h0, round_intCast]
  norm_num

theorem colMax_nonneg (l : List ℚ) (h : ∀ x ∈ l, 0 ≤ x) :
    0 ≤ (colMax l).getD 0 := by
  induction l with
  | nil => simp [colMax]
  | cons x xs ih =>
    have hx : 0 ≤ x := h x (List.mem_cons_self _ _)
    cases hm : colMax xs with
    | none => simp [colMax, hm, hx]
    | some m =>
      have hmn := ih (fun y hy => h y (List.mem_cons_of_mem _ hy))
      rw [hm] at hmn
      simp only [Option.getD] at hmn
      simp only [colMax, hm, Option.getD]
      exact le_max_of_le_left hx

theorem mem_load_generic (today : ℤ) (rows : List RawRow) (r : RawRow)
    (hr : r ∈ rows) :
    enrichRow today (gapFillOf today rows) r ∈
      load_and_enrich today (InputTable.generic rows) := by
  show _ ∈ enrichGeneric today (adaptRows today (InputTable.generic rows))
  have hrows : adaptRows today (InputTable.generic rows) = rows := rfl
  rw [hrows]
  exact List.mem_map_of_mem _ hr

theorem enrichRow_clip_nonneg (today : ℤ) (gapFill : ℚ) (r : RawRow) :
    0 ≤ (enrichRow today gapFill r).recency ∧
    0 ≤ (enrichRow today gapFill r).tenure ∧
    0 ≤ (enrichRow today gapFill r).cltv := by
  refine ⟨?_, ?_, ?_⟩ <;> simp only [enrichRow]
  · exact le_max_right _ 0
  · cases r.signupDate with
    | none => exact le_refl 0
    | some d => exact le_max_right _ 0
  · exact le_max_right _ 0

theorem enrichRow_nonneg (today : ℤ) (gapFill : ℚ) (r : RawRow)
    (hg : 0 ≤ gapFill)
    (hn : 0 ≤ r.numTransactions.getD 0) (hs : 0 ≤ r.totalSpend.getD 0)
    (hd : r.lastLoginDate.getD today ≤ today) :
    0 ≤ (enrichRow today gapFill r).recency ∧
    0 ≤ (enrichRow today gapFill r).frequency ∧
    0 ≤ (enrichRow today gapFill r).monetary ∧
    0 ≤ (enrichRow today gapFill r).tenure ∧
    0 ≤ (enrichRow today gapFill r).activityGap ∧
    0 ≤ (enrichRow today gapFill r).arpu ∧
    0 ≤ (enrichRow today gapFill r).cltv := by
  refine ⟨?_, ?_, ?_, ?_, ?_, ?_, ?_⟩ <;> simp only [enrichRow, gapRaw]
  · exact le_max_right _ 0
  · exact hn
  · exact hs
  · cases r.signupDate with
    | none => exact le_refl 0
    | some d => exact le_max_right _ 0
  · cases hld : r.lastLoginDate with
    | none => simpa using hg
    | some d =>
      rw [hld] at hd
      simp only [Option.getD] at hd
      have hz : (0 : ℤ) ≤ today - d := by omega
      simpa using (by exact_mod_cast hz : (0 : ℚ) ≤ ((today - d : ℤ) : ℚ))
  · exact safeDivQ_nonneg hs (le_trans zero_le_one (le_max_right _ _))
  · exact le_max_right _ 0

/-! ## Claim theorems -/

/-- C7 (amended): on finite inputs, `_safe_div` agrees with the guarded
rational quotient — it returns 0 whenever the denominator is exactly 0,
otherwise the exact quotient — and its output is always finite (never NaN
or an infinity).  The unamended claim fails on non-finite inputs, see the
counterexample. -/
theorem c7_safe_div_guard (a b : ℚ) :
    safe_div (EFloat.fin a) (EFloat.fin b) = EFloat.fin (safeDivQ a b) ∧
    (safe_div (EFloat.fin a) (EFloat.fin b)).isFinite = true ∧
    safe_div (EFloat.fin a) (EFloat.fin 0) = EFloat.fin 0 := by
  have h1 : safe_div (EFloat.fin a) (EFloat.fin b) = EFloat.fin (safeDivQ a b) := by
    by_cases hb : b = 0
    · subst hb
      simp [safe_div, safeDivQ]
    · simp [safe_div, EFloat.ediv, safeDivQ, hb]
  refine ⟨h1, ?_, ?_⟩
  · rw [h1]; rfl
  · simp [safe_div]

/-- C7 counterexample: with a non-finite numerator or denominator and a
nonzero denominator, `_safe_div` propagates the special value — the
output is an infinity or NaN, refuting "never produces NaN or infinity
in its output" over every pair of numeric inputs. -/
theorem c7_counterexample :
    safe_div EFloat.inf (EFloat.fin 1) = EFloat.inf ∧
    safe_div (EFloat.fin 1) EFloat.nan = EFloat.nan := by
  constructor <;> rfl

/-- C10: in the Telco adapter, any `Churn` cell other than the exact
strings "Yes" and "No" — including a missing cell — is mapped to 0, while
"Yes" maps to 1 and "No" maps to 0; in particular "yes", "True" and "1"
become 0. -/
theorem c10_churn_mapping (v : Option String)
    (h : ∀ s, v = some s → s ≠ "Yes" ∧ s ≠ "No") :
    churnToInt v = 0 ∧
    churnToInt (some "yes") = 0 ∧ churnToInt (some "True") = 0 ∧
    churnToInt (some "1") = 0 ∧ churnToInt none = 0 ∧
    churnToInt (some "Yes") = 1 ∧ churnToInt (some "No") = 0 := by
  refine ⟨?_, by rfl, by rfl, by rfl, by rfl, by rfl, by rfl⟩
  cases v with
  | none => rfl
  | some s =>
    obtain ⟨h1, h2⟩ := h s rfl
    simp [churnToInt, h1, h2]

/-- Witness for C10 at the concrete unrecognized cells "yes" and "Maybe". -/
theorem c10_witness :
    churnToInt (some "yes") = 0 ∧ churnToInt (some "Maybe") = 0 := by
  constructor
  · exact (c10_churn_mapping (some "yes") (fun s hs => by
      injection hs with hh
      subst hh
      exact ⟨by decide, by decide⟩)).1
  · exact (c10_churn_mapping (some "Maybe") (fun s hs => by
      injection hs with hh
      subst hh
      exact ⟨by decide, by decide⟩)).1

/-- C4: `train_churn_model` raises its descriptive validation error (and
returns no bundle) exactly when the outcome label — the explicit label
column when present, otherwise the weak label `Recency >= 180` — has
fewer than two distinct classes. -/
theorem c4_train_validation (t : TrainTable) :
    train_churn_model t = Except.error "Need at least 2 classes for classification." ↔
      ((prepareY t).dedup).length < 2 := by
  unfold train_churn_model
  by_cases h : ((prepareY t).dedup).length < 2
  · simp [h]
  · simp [h]

/-- C9: `segment_rfm` is deterministic — two calls with identical input
table, k and seed produce identical cluster assignments, identical
`SegmentID` values and an identical `SegmentID`-to-`Segment` label map.
The sklearn scaler/clusterer are deterministic functions of their inputs
for a fixed `random_state` (their documented contract) and appear as the
explicit function arguments; the pipeline threads the seed and consumes
no other entropy source. -/
theorem c9_segment_deterministic
    (scale : List (ℚ × ℚ × ℚ) → List (ℚ × ℚ × ℚ))
    (kmeans : List (ℚ × ℚ × ℚ) → ℕ → ℕ → (List ℕ × List Centroid))
    (rows : List (Option ℚ × Option ℚ × Option ℚ)) (k seed : ℕ) :
    (segment_rfm scale kmeans rows k seed).segmentIDs =
      (segment_rfm scale kmeans rows k seed).segmentIDs ∧
    (segment_rfm scale kmeans rows k seed).segments =
      (segment_rfm scale kmeans rows k seed).segments ∧
    (segment_rfm scale kmeans rows k seed).labelMap =
      (segment_rfm scale kmeans rows k seed).labelMap :=
  ⟨rfl, rfl, rfl⟩

/-- C8: `predict_churn_probability` scores the fixed 0-filled feature
set, appends a probability column whose every value lies in [0, 1], and
leaves the caller's rows unchanged (the output's underlying rows are
exactly the input). -/
theorem c8_predict (m : FittedModel) (rows : List PredRow) :
    predict_churn_probability m rows = rows.map (fun r => (r, m.proba (featVec r))) ∧
    (predict_churn_probability m rows).map Prod.fst = rows ∧
    ∀ pr ∈ predict_churn_probability m rows, 0 ≤ pr.2 ∧ pr.2 ≤ 1 := by
  refine ⟨rfl, ?_, ?_⟩
  · simp only [predict_churn_probability, List.map_map]
    exact List.map_id' rows
  · intro pr hpr
    simp only [predict_churn_probability, List.mem_map] at hpr
    obtain ⟨r, _, rfl⟩ := hpr
    exact ⟨m.proba_nonneg _, m.proba_le_one _⟩

/-- Witness for C8 on a concrete model and a concrete one-row table. -/
theorem c8_witness :
    (predict_churn_probability halfModel [emptyPredRow]).map Prod.fst = [emptyPredRow] ∧
    (0 ≤ ((emptyPredRow, halfModel.proba (featVec emptyPredRow)) : PredRow × ℚ).2 ∧
     ((emptyPredRow, halfModel.proba (featVec emptyPredRow)) : PredRow × ℚ).2 ≤ 1) :=
  ⟨(c8_predict halfModel [emptyPredRow]).2.1,
   (c8_predict halfModel [emptyPredRow]).2.2 _ (by simp [predict_churn_probability])⟩

/-- C2 (amended): in the retention matrix of `monthly_cohort_retention`,
the period-0 column equals 1.0 for every cohort with nonzero size, every
cohort with zero size yields 0 for all periods, and every value is
non-negative.  The unamended bound "every retention value lies in [0,1]"
fails: a later-period count can exceed the period-0 cohort size, see the
counterexample. -/
theorem c2_cohort_retention (rows : List CohortRow) (c p : ℤ) :
    (cohortSize rows c ≠ 0 → monthly_cohort_retention rows c 0 = 1) ∧
    (cohortSize rows c = 0 → monthly_cohort_retention rows c p = 0) ∧
    0 ≤ monthly_cohort_retention rows c p := by
  refine ⟨?_, ?_, ?_⟩
  · intro h
    unfold monthly_cohort_retention
    rw [if_neg h]
    have hc : cohortCount rows c (c + 0) = cohortSize rows c := by
      unfold cohortSize
      norm_num
    rw [hc, div_self (by exact_mod_cast h)]
    exact round3_one
  · intro h
    unfold monthly_cohort_retention
    rw [if_pos h]
    exact round3_zero
  · unfold monthly_cohort_retention
    apply round3_nonneg
    split
    · exact le_refl 0
    · exact div_nonneg (by positivity) (by positivity)

/-- Witness for C2 on concrete tables: a one-customer cohort has
period-0 retention 1, the empty table yields 0, and values are
non-negative. -/
theorem c2_witness :
    monthly_cohort_retention [⟨"A", 0, 0⟩] 0 0 = 1 ∧
    monthly_cohort_retention ([] : List CohortRow) 0 3 = 0 ∧
    0 ≤ monthly_cohort_retention [⟨"A", 0, 0⟩] 0 5 :=
  ⟨(c2_cohort_retention [⟨"A", 0, 0⟩] 0 0).1 (by decide),
   (c2_cohort_retention ([] : List CohortRow) 0 3).2.1 (by decide),
   (c2_cohort_retention [⟨"A", 0, 0⟩] 0 5).2.2⟩

/-- C2 counterexample: cohort month 0 has one customer still active in
month 0 (size 1) but two customers whose last activity is month 1, so the
period-1 retention value is 2 — outside [0, 1], refuting the claimed
bound. -/
theorem c2_counterexample :
    1 < monthly_cohort_retention
      [⟨"A", 0, 0⟩, ⟨"B", 0, 1⟩, ⟨"C", 0, 1⟩] 0 1 := by
  unfold monthly_cohort_retention
  have h1 : cohortSize [⟨"A", 0, 0⟩, ⟨"B", 0, 1⟩, ⟨"C", 0, 1⟩] 0 = 1 := by decide
  have h2 : cohortCount [⟨"A", 0, 0⟩, ⟨"B", 0, 1⟩, ⟨"C", 0, 1⟩] 0 (0 + 1) = 2 := by decide
  rw [h1, h2]
  norm_num
  unfold round3
  have h3 : ((2 : ℚ) * 1000) = ((2000 : ℤ) : ℚ) := by norm_num
  rw [h3, round_intCast]
  norm_num

/-- C5: on the alternate (Telco) schema, `load_and_enrich` synthesizes
`SignupDate` as the evaluation instant minus 30 days per tenure month,
sets `LastPurchaseDate` to `SignupDate + 30 * max(Tenure-1, 0)` days when
the outcome label indicates churn and to the evaluation instant
otherwise, and maps the Yes/No label to {1, 0}; the scenario row
`{customerID: "X1", tenure: 12, MonthlyCharges: 50, TotalCharges: 600,
Churn: "Yes"}` yields `CustomerID = "X1"`, a `SignupDate` 360 days before
the instant, a `LastPurchaseDate` 30 days before it, and `Churn = 1`. -/
theorem c5_telco_adapter (today : ℤ) :
    ((load_and_enrich today (InputTable.telco
        [⟨"X1", some 12, some 50, some 600, some "Yes"⟩])).map
      (fun e => (e.raw.customerID, e.raw.signupDate, e.raw.lastPurchaseDate, e.raw.churn))
      = [("X1", some (today - 360), some (today - 30), some 1)]) ∧
    (∀ r : TelcoRow,
      (telcoAdapt today r).signupDate = some (today - r.tenure.getD 0 * 30) ∧
      (telcoAdapt today r).lastPurchaseDate =
        some (if churnToInt r.churn = 1
              then today - r.tenure.getD 0 * 30 + max (r.tenure.getD 0 - 1) 0 * 30
              else today) ∧
      (telcoAdapt today r).churn = some (churnToInt r.churn)) ∧
    churnToInt (some "Yes") = 1 ∧ churnToInt (some "No") = 0 := by
  refine ⟨?_, fun r => ⟨rfl, rfl, rfl⟩, rfl, rfl⟩
  simp only [load_and_enrich, adaptRows, enrichGeneric, List.map_map, List.map_cons,
    List.map_nil, enrichRow, telcoAdapt, churnToInt]
  norm_num
  omega

/-- C6 (amended): a record whose engineered `Tenure` and `Frequency` are
both 0 gets `ARPU = Monetary` (the guarded denominator is floored at one
month) and `CLTV = 0`; in particular when `Monetary` is also 0 — the
intended brand-new customer of the claim — `ARPU = 0` and `CLTV = 0`,
and no NaN or infinity arises.  The unamended claim fails when such a
record carries nonzero `TotalSpend`, see the counterexample. -/
theorem c6_zero_tenure_frequency (today : ℤ) (t : InputTable) (e : EnrichedRow)
    (he : e ∈ load_and_enrich today t)
    (h1 : e.tenure = 0) (h2 : e.frequency = 0) :
    e.arpu = e.monetary ∧ e.cltv = 0 ∧ (e.monetary = 0 → e.arpu = 0) := by
  unfold load_and_enrich enrichGeneric at he
  obtain ⟨r, hr, rfl⟩ := List.mem_map.1 he
  simp only [enrichRow] at h1 h2 ⊢
  refine ⟨?_, ?_, ?_⟩
  · rw [h1, safeDivQ_zero_left]
    norm_num [safeDivQ]
  · rw [h2, safeDivQ_zero_left]
    norm_num
  · intro hm
    rw [h1, hm, safeDivQ_zero_left]

/-- Witness for C6: a customer signed up "today" with zero transactions
and zero spend has `Tenure = 0`, `Frequency = 0` and gets
`ARPU = Monetary`, `CLTV = 0`, and — since its `Monetary` is 0 —
`ARPU = 0`. -/
theorem c6_witness :
    (enrichRow 0 (gapFillOf 0 [rowNew]) rowNew).arpu =
      (enrichRow 0 (gapFillOf 0 [rowNew]) rowNew).monetary ∧
    (enrichRow 0 (gapFillOf 0 [rowNew]) rowNew).cltv = 0 ∧
    (enrichRow 0 (gapFillOf 0 [rowNew]) rowNew).arpu = 0 := by
  have hmem := mem_load_generic 0 [rowNew] rowNew (List.mem_singleton.2 rfl)
  have h := c6_zero_tenure_frequency 0 _ _ hmem
    (by norm_num [enrichRow, rowNew]) (by norm_num [enrichRow, rowNew])
  exact ⟨h.1, h.2.1, h.2.2 (by norm_num [enrichRow, rowNew])⟩

/-- C6 counterexample: the record `rowSpend` — engineered `Tenure = 0`
and `Frequency = 0` but `TotalSpend = 500` — appears in the output of
`load_and_enrich` with `ARPU = 500`, not 0: the guarded denominator is
floored at one month, so `ARPU = Monetary`. -/
theorem c6_counterexample :
    (enrichRow 0 (gapFillOf 0 [rowSpend]) rowSpend ∈
      load_and_enrich 0 (InputTable.generic [rowSpend])) ∧
    (enrichRow 0 (gapFillOf 0 [rowSpend]) rowSpend).tenure = 0 ∧
    (enrichRow 0 (gapFillOf 0 [rowSpend]) rowSpend).frequency = 0 ∧
    (enrichRow 0 (gapFillOf 0 [rowSpend]) rowSpend).arpu = 500 := by
  refine ⟨mem_load_generic 0 [rowSpend] rowSpend (List.mem_singleton.2 rfl), ?_, ?_, ?_⟩
    <;> norm_num [enrichRow, safeDivQ, rowSpend]

/-- C1 (amended): every record produced by `load_and_enrich` has the
seven engineered columns `Recency`, `Frequency`, `Monetary`, `Tenure`,
`ActivityGap`, `ARPU`, `CLTV` present (structurally) and finite (the
guarded divisions keep every value an exact rational); `Recency`,
`Tenure` and `CLTV` — the clipped columns — are non-negative for every
input unconditionally, and all seven are non-negative provided every
adapted input row has non-negative raw counters and no login date after
the evaluation instant.  The unamended universal non-negativity of all
seven fails for negative counters or future dates, see the
counterexample. -/
theorem c1_enrich_invariant (today : ℤ) (t : InputTable) :
    (∀ e ∈ load_and_enrich today t,
      0 ≤ e.recency ∧ 0 ≤ e.tenure ∧ 0 ≤ e.cltv) ∧
    ((∀ r ∈ adaptRows today t,
        0 ≤ r.numTransactions.getD 0 ∧ 0 ≤ r.totalSpend.getD 0 ∧
        r.lastLoginDate.getD today ≤ today) →
      ∀ e ∈ load_and_enrich today t,
        0 ≤ e.recency ∧ 0 ≤ e.frequency ∧ 0 ≤ e.monetary ∧ 0 ≤ e.tenure ∧
        0 ≤ e.activityGap ∧ 0 ≤ e.arpu ∧ 0 ≤ e.cltv) := by
  constructor
  · intro e he
    unfold load_and_enrich enrichGeneric at he
    obtain ⟨r, hr, rfl⟩ := List.mem_map.1 he
    exact enrichRow_clip_nonneg today _ r
  intro h e he
  unfold load_and_enrich enrichGeneric at he
  obtain ⟨r, hr, rfl⟩ := List.mem_map.1 he
  obtain ⟨hn, hs, hd⟩ := h r hr
  have hgap : 0 ≤ (colMax ((adaptRows today t).filterMap (gapRaw today))).getD 0 := by
    apply colMax_nonneg
    intro x hx
    obtain ⟨r2, hr2, hx2⟩ := List.mem_filterMap.1 hx
    obtain ⟨_, _, h2c⟩ := h r2 hr2
    unfold gapRaw at hx2
    cases hld : r2.lastLoginDate with
    | none =>
      rw [hld] at hx2
      simp at hx2
    | some d =>
      rw [hld] at hx2
      simp only [Option.map_some'] at hx2
      rw [hld] at h2c
      simp only [Option.getD] at h2c
      obtain rfl := (Option.some_inj.1 hx2).symm
      have hz : (0 : ℤ) ≤ today - d := by omega
      exact_mod_cast hz
  exact enrichRow_nonneg today _ r hgap hn hs hd

/-- Witness for C1: the conditional all-seven part on a concrete clean
one-row table evaluated at day 5, and the unconditional clipped-column
part on the dirty row of the counterexample. -/
theorem c1_witness :
    (0 ≤ (enrichRow 5 (gapFillOf 5 [rowClean]) rowClean).recency ∧
     0 ≤ (enrichRow 5 (gapFillOf 5 [rowClean]) rowClean).frequency ∧
     0 ≤ (enrichRow 5 (gapFillOf 5 [rowClean]) rowClean).monetary ∧
     0 ≤ (enrichRow 5 (gapFillOf 5 [rowClean]) rowClean).tenure ∧
     0 ≤ (enrichRow 5 (gapFillOf 5 [rowClean]) rowClean).activityGap ∧
     0 ≤ (enrichRow 5 (gapFillOf 5 [rowClean]) rowClean).arpu ∧
     0 ≤ (enrichRow 5 (gapFillOf 5 [rowClean]) rowClean).cltv) ∧
    (0 ≤ (enrichRow 0 (gapFillOf 0 [rowNeg]) rowNeg).recency ∧
     0 ≤ (enrichRow 0 (gapFillOf 0 [rowNeg]) rowNeg).tenure ∧
     0 ≤ (enrichRow 0 (gapFillOf 0 [rowNeg]) rowNeg).cltv) :=
  ⟨(c1_enrich_invariant 5 (InputTable.generic [rowClean])).2
    (by intro r hr
        have hr2 : r = rowClean := List.mem_singleton.1 hr
        subst hr2
        refine ⟨by norm_num [rowClean], by norm_num [rowClean], by norm_num [rowClean]⟩)
    _ (mem_load_generic 5 [rowClean] rowClean (List.mem_singleton.2 rfl)),
   (c1_enrich_invariant 0 (InputTable.generic [rowNeg])).1
    _ (mem_load_generic 0 [rowNeg] rowNeg (List.mem_singleton.2 rfl))⟩

/-- C1 counterexample: a record with negative raw counters and a login
date after the evaluation instant is enriched to negative `Frequency`,
`Monetary`, `ActivityGap` and `ARPU` — the engineered columns are not
non-negative for every input table. -/
theorem c1_counterexample :
    (enrichRow 0 (gapFillOf 0 [rowNeg]) rowNeg ∈
      load_and_enrich 0 (InputTable.generic [rowNeg])) ∧
    (enrichRow 0 (gapFillOf 0 [rowNeg]) rowNeg).activityGap < 0 ∧
    (enrichRow 0 (gapFillOf 0 [rowNeg]) rowNeg).frequency < 0 ∧
    (enrichRow 0 (gapFillOf 0 [rowNeg]) rowNeg).monetary < 0 ∧
    (enrichRow 0 (gapFillOf 0 [rowNeg]) rowNeg).arpu < 0 := by
  refine ⟨mem_load_generic 0 [rowNeg] rowNeg (List.mem_singleton.2 rfl), ?_, ?_, ?_, ?_⟩
    <;> norm_num [enrichRow, safeDivQ, gapRaw, rowNeg]

theorem scoresOf_getD (cs : List Centroid) (j : ℕ) (hj : j < cs.length) :
    (scoresOf cs).getD j 0 = centroidScore (cs.getD j ⟨0, 0, 0⟩) := by
  simp [scoresOf, List.getD_eq_getElem?_getD, List.getElem?_map,
    List.getElem?_eq_getElem hj]

theorem rankOf_lt_length (scores : List ℚ) (i : ℕ) (hi : i < scores.length) :
    rankOf scores i < scores.length := by
  unfold rankOf
  refine lt_of_lt_of_le (Finset.card_lt_card ?_) (le_of_eq (Finset.card_range _))
  rw [Finset.ssubset_iff_of_subset (Finset.filter_subset _ _)]
  refine ⟨i, Finset.mem_range.2 hi, fun hmem => ?_⟩
  rcases (Finset.mem_filter.1 hmem).2 with h | h
  · exact lt_irrefl _ h
  · exact lt_irrefl _ h.2

theorem rankOf_lt_rankOf (scores : List ℚ) (i j : ℕ) (hi : i < scores.length)
    (hj : j < scores.length)
    (hij : scores.getD j 0 < scores.getD i 0 ∨
      (scores.getD i 0 = scores.getD j 0 ∧ i < j)) :
    rankOf scores i < rankOf scores j := by
  unfold rankOf
  apply Finset.card_lt_card
  rw [Finset.ssubset_def]
  constructor
  · refine Finset.subset_iff.2 (fun x hx => ?_)
    obtain ⟨hxr, hxc⟩ := Finset.mem_filter.1 hx
    refine Finset.mem_filter.2 ⟨hxr, ?_⟩
    rcases hxc with h1 | h1 <;> rcases hij with h2 | h2
    · exact Or.inl (h2.trans h1)
    · exact Or.inl (by linarith [h2.1])
    · exact Or.inl (by linarith [h1.1])
    · exact Or.inr ⟨h1.1.trans h2.1, h1.2.trans h2.2⟩
  · intro hts
    have hmemj : i ∈ (Finset.range scores.length).filter (fun x =>
        scores.getD j 0 < scores.getD x 0 ∨
        (scores.getD x 0 = scores.getD j 0 ∧ x < j)) :=
      Finset.mem_filter.2 ⟨Finset.mem_range.2 hi, hij⟩
    have hmemi := hts hmemj
    rcases (Finset.mem_filter.1 hmemi).2 with h | h
    · exact lt_irrefl _ h
    · exact lt_irrefl _ h.2

theorem rankOf_inj (scores : List ℚ) (i j : ℕ) (hi : i < scores.length)
    (hj : j < scores.length) (hr : rankOf scores i = rankOf scores j) :
    i = j := by
  by_contra hne
  rcases lt_trichotomy (scores.getD i 0) (scores.getD j 0) with h | h | h
  · have := rankOf_lt_rankOf scores j i hj hi (Or.inl h)
    omega
  · rcases Nat.lt_or_ge i j with hlt | hge
    · have := rankOf_lt_rankOf scores i j hi hj (Or.inr ⟨h, hlt⟩)
      omega
    · have hji : j < i := by omega
      have := rankOf_lt_rankOf scores j i hj hi (Or.inr ⟨h.symm, hji⟩)
      omega
  · have := rankOf_lt_rankOf scores i j hi hj (Or.inl h)
    omega

theorem rankOf_surj (scores : List ℚ) (r : ℕ) (hr : r < scores.length) :
    ∃ i, i < scores.length ∧ rankOf scores i = r := by
  have h := Finset.surj_on_of_inj_on_of_card_le
    (fun a (_ : a ∈ Finset.range scores.length) => rankOf scores a)
    (fun a ha => Finset.mem_range.2 (rankOf_lt_length scores a (Finset.mem_range.1 ha)))
    (fun a b ha hb hab =>
      rankOf_inj scores a b (Finset.mem_range.1 ha) (Finset.mem_range.1 hb) hab)
    (le_refl _)
  obtain ⟨a, ha, hra⟩ := h r (Finset.mem_range.2 hr)
  exact ⟨a, Finset.mem_range.1 ha, hra.symm⟩

theorem find?_unique {p : ℕ → Bool} (l : List ℕ) (a : ℕ) (ha : a ∈ l)
    (hpa : p a = true) (huniq : ∀ b ∈ l, p b = true → b = a) :
    l.find? p = some a := by
  induction l with
  | nil => cases ha
  | cons x xs ih =>
    by_cases hx : p x = true
    · have hxa : x = a := huniq x (List.mem_cons_self _ _) hx
      subst hxa
      exact List.find?_cons_of_pos _ hx
    · have hx2 : p x = false := by simpa using hx
      rw [List.find?_cons_of_neg _ (by simp [hx2])]
      have hax : a ≠ x := fun h => hx (h ▸ hpa)
      have ha2 : a ∈ xs := by
        rcases List.mem_cons.1 ha with h | h
        · exact absurd h hax
        · exact h
      exact ih ha2 (fun b hb hpb => huniq b (List.mem_cons_of_mem _ hb) hpb)

theorem cidOfRank_top (scores : List ℚ) (i : ℕ) (hi : i < scores.length)
    (h0 : rankOf scores i = 0)
    (hothers : ∀ c, c < scores.length → c ≠ i → rankOf scores c ≠ 0) :
    cidOfRank scores 0 = i := by
  unfold cidOfRank
  rw [find?_unique (List.range scores.length) i (List.mem_range.2 hi)
    (by simp [h0])
    (fun b hb hpb => by
      by_contra hne
      exact hothers b (List.mem_range.1 hb) hne (of_decide_eq_true hpb))]
  rfl

theorem cidOfRank_ne (scores : List ℚ) (i r : ℕ) (hr : r < scores.length)
    (h0 : rankOf scores i = 0) (hrne : r ≠ 0) :
    cidOfRank scores r ≠ i := by
  unfold cidOfRank
  obtain ⟨c, hc, hcr⟩ := rankOf_surj scores r hr
  have hsome : ((List.range scores.length).find? (fun x => rankOf scores x = r)).isSome :=
    List.find?_isSome.2 ⟨c, List.mem_range.2 hc, by simp [hcr]⟩
  obtain ⟨c0, hc0⟩ := Option.isSome_iff_exists.1 hsome
  have hpv := List.find?_some hc0
  have hc0r : rankOf scores c0 = r := of_decide_eq_true hpv
  rw [hc0]
  intro hci
  simp only [Option.getD] at hci
  rw [hci] at hc0r
  rw [h0] at hc0r
  exact hrne hc0r.symm

theorem filter_range_eq_single (n : ℕ) (p : ℕ → Bool) (hn : 0 < n)
    (hp0 : p 0 = true) (hpr : ∀ r, r < n → r ≠ 0 → p r = false) :
    (List.range n).filter p = [0] := by
  obtain ⟨m, rfl⟩ : ∃ m, n = m + 1 := ⟨n - 1, by omega⟩
  rw [List.range_succ_eq_map, List.filter_cons_of_pos hp0, List.filter_map]
  have hnil : (List.range m).filter (p ∘ Nat.succ) = [] :=
    List.filter_eq_nil_iff.2 (fun a ha => by
      have hpa := hpr (a + 1) (by have := List.mem_range.1 ha; omega) (by omega)
      simp [Function.comp, Nat.succ_eq_add_one, hpa])
  rw [hnil]
  rfl

/-- C3: `segment_rfm` scores each centroid as `-meanRecency +
meanFrequency + meanMonetary` on the standardized features, ranks
clusters by that score descending, and assigns labels in rank order from
the fixed vocabulary Champions > Loyal > At Risk > Hibernating, falling
back to "Segment-<rank>" past the vocabulary; the cluster whose centroid
has strictly the lowest mean Recency and strictly the highest mean
Frequency+Monetary receives the top-ranked label "Champions". -/
theorem c3_segment_labeling (cs : List Centroid) (i : ℕ) (hi : i < cs.length)
    (hdom : ∀ j, j < cs.length → j ≠ i →
      (cs.getD i ⟨0, 0, 0⟩).r < (cs.getD j ⟨0, 0, 0⟩).r ∧
      (cs.getD j ⟨0, 0, 0⟩).f + (cs.getD j ⟨0, 0, 0⟩).m <
        (cs.getD i ⟨0, 0, 0⟩).f + (cs.getD i ⟨0, 0, 0⟩).m) :
    dictFind (labelMapOf cs) i = some "Champions" ∧
    (∀ c : Centroid, centroidScore c = -c.r + c.f + c.m) ∧
    vocabLabel 0 = "Champions" ∧ vocabLabel 1 = "Loyal" ∧
    vocabLabel 2 = "At Risk" ∧ vocabLabel 3 = "Hibernating" ∧
    (∀ rank, 4 ≤ rank → vocabLabel rank = "Segment-" ++ toString rank) ∧
    (∀ scale kmeans rows k seed,
      (segment_rfm scale kmeans rows k seed).labelMap =
        labelMapOf (segment_rfm scale kmeans rows k seed).centroids) := by
  have hlen : (scoresOf cs).length = cs.length := by simp [scoresOf]
  have hi2 : i < (scoresOf cs).length := by rw [hlen]; exact hi
  have hscore : ∀ j, j < cs.length → j ≠ i →
      (scoresOf cs).getD j 0 < (scoresOf cs).getD i 0 := by
    intro j hj hne
    rw [scoresOf_getD cs j hj, scoresOf_getD cs i hi]
    obtain ⟨h1, h2⟩ := hdom j hj hne
    unfold centroidScore
    linarith
  have hrank0 : rankOf (scoresOf cs) i = 0 := by
    unfold rankOf
    rw [Finset.card_eq_zero, Finset.filter_eq_empty_iff]
    intro j hjr
    rw [Finset.mem_range, hlen] at hjr
    intro hcon
    by_cases hne : j = i
    · subst hne
      rcases hcon with h | h
      · exact lt_irrefl _ h
      · exact lt_irrefl _ h.2
    · have hs := hscore j hjr hne
      rcases hcon with h | h
      · exact lt_irrefl _ (hs.trans h)
      · exact lt_irrefl _ (h.1 ▸ hs)
  have hrankpos : ∀ c, c < cs.length → c ≠ i → rankOf (scoresOf cs) c ≠ 0 := by
    intro c hc hne h0
    unfold rankOf at h0
    rw [Finset.card_eq_zero, Finset.filter_eq_empty_iff] at h0
    exact h0 (Finset.mem_range.2 hi2) (Or.inl (hscore c hc hne))
  have hcid0 : cidOfRank (scoresOf cs) 0 = i :=
    cidOfRank_top (scoresOf cs) i hi2 hrank0
      (fun c hc hne => hrankpos c (by rwa [hlen] at hc) hne)
  refine ⟨?_, fun c => rfl, rfl, rfl, rfl, rfl, ?_, fun scale kmeans rows k seed => rfl⟩
  · unfold dictFind labelMapOf
    rw [List.filter_map]
    have hfilter : (List.range cs.length).filter
        ((fun q => decide (q.1 = i)) ∘
          (fun rank => (cidOfRank (scoresOf cs) rank, vocabLabel rank))) = [0] := by
      apply filter_range_eq_single
      · omega
      · simp [Function.comp, hcid0]
      · intro r hr hrne
        have hne := cidOfRank_ne (scoresOf cs) i r (by rw [hlen]; exact hr) hrank0 hrne
        simp [Function.comp, hne]
    rw [hfilter]
    simp only [List.map_cons, List.map_nil, List.getLast?_singleton, Option.map_some']
    rfl
  · intro rank h4
    obtain ⟨m, rfl⟩ : ∃ m, rank = m + 4 := ⟨rank - 4, by omega⟩
    rfl

/-- Witness for C3 on two concrete centroids: the second has strictly
lower mean Recency and strictly higher mean Frequency+Monetary, and is
labeled "Champions". -/
theorem c3_witness :
    dictFind (labelMapOf [⟨2, 0, 0⟩, ⟨0, 1, 1⟩]) 1 = some "Champions" :=
  (c3_segment_labeling [⟨2, 0, 0⟩, ⟨0, 1, 1⟩] 1 (by norm_num)
    (fun j hj hne => by
      have hj0 : j = 0 := by
        simp only [List.length_cons, List.length_nil] at hj
        omega
      subst hj0
      refine ⟨?_, ?_⟩ <;> norm_num [List.getD])).1
